import Mathlib

/-!
Verification of the feature-flag rule engine and configuration validator
(repository `feature-flag-rules-kiro`).

The TypeScript sources are embedded shallowly:

* `src/src/engine/RuleEngine.ts` — `getContextValue`, `conditionMatches`,
  `ruleMatches`, `evaluateRules` become Lean functions over a typed
  configuration (`FeatureRule`, `RuleCondition`, `UserContext`).  The
  JavaScript `Set` accumulator is modelled by insertion-order add-if-absent,
  and `Array.prototype.sort()` (default comparator on strings, i.e.
  lexicographic comparison of the character sequences) by an insertion sort
  over an executable lexicographic order on character lists.
* `src/src/config/ConfigurationLoader.ts` — `validateConfiguration` becomes a
  function over a JSON-like document tree (`JValue`).  JavaScript-specific
  behaviour (truthiness, `typeof`, `Array.isArray`, property access returning
  `undefined`, `Set` membership via SameValueZero, string interpolation, and
  the `TypeError`s thrown by `config.features?.map(...)` / `new Set(...)` on
  non-array operands) is made explicit; a thrown exception is modelled as
  `Except.error`.
* `src/src/validation/InputValidator.ts` and `src/src/FeatureFlagEvaluator.ts`
  — embedded as functions over optional configurations, mirroring the
  `configuration?` fields of the classes.

The current `RuleEngine` class additionally carries a configuration set via
`setConfiguration` and throws when evaluated unconfigured; that class body is
not part of the sources available here (only its callers and tests are), so
its configuration state machine is modelled from the specification where
noted.
-/

/-- `UserContext` from `src/types`: `userId`, `region`, `plan` strings. -/
structure UserContext where
  userId : String
  region : String
  plan : String
deriving Repr, DecidableEq

/-- A condition value: in TypeScript `value: string | string[]`. -/
inductive CondValue where
  | str (s : String)
  | arr (elems : List String)
deriving Repr, DecidableEq

/-- `RuleCondition` from `src/types`.  The TypeScript field `attribute` is a
keyword in Lean, so it is named `attr` here; `operator` and `attr` are kept
as plain strings because the JavaScript runtime does not enforce the
`'plan' | 'region' | 'userId'` / `'equals' | 'in'` unions and the engine has
explicit default branches for other values. -/
structure RuleCondition where
  attr : String
  operator : String
  value : CondValue
deriving Repr, DecidableEq

/-- `FeatureRule` from `src/types`. -/
structure FeatureRule where
  id : String
  conditions : List RuleCondition
  features : List String
deriving Repr, DecidableEq

/-- `FeatureDefinition` from `src/types`. -/
structure FeatureDefinition where
  id : String
  name : String
  description : Option String
deriving Repr, DecidableEq

/-- `FeatureFlagConfiguration` from `src/types`. -/
structure FeatureFlagConfiguration where
  rules : List FeatureRule
  supportedPlans : List String
  supportedRegions : List String
  features : List FeatureDefinition
deriving Repr, DecidableEq

/-- `RuleEngine.getContextValue` (`src/src/engine/RuleEngine.ts:99-113`):
`switch (attribute) { case 'userId' ... default: return ''; }`. -/
def getContextValue (attr : String) (context : UserContext) : String :=
  if attr = "userId" then context.userId
  else if attr = "region" then context.region
  else if attr = "plan" then context.plan
  else ""

/-- `RuleEngine.conditionMatches` (`src/src/engine/RuleEngine.ts:70-90`).
For `equals`, `contextValue === condition.value`: a string is `===`-equal to
`condition.value` only when the latter is the same string (never when it is
an array).  For `in`: membership if the value is an array, otherwise
`contextValue === condition.value`.  Any other operator falls to the
`default: return false` branch. -/
def conditionMatches (condition : RuleCondition) (context : UserContext) : Bool :=
  let contextValue := getContextValue condition.attr context
  if condition.operator = "equals" then
    match condition.value with
    | .str s => contextValue = s
    | .arr _ => false
  else if condition.operator = "in" then
    match condition.value with
    | .arr xs => xs.contains contextValue
    | .str s => contextValue = s
  else
    false

/-- `RuleEngine.ruleMatches` (`src/src/engine/RuleEngine.ts:57-61`):
`rule.conditions.every(...)`. -/
def ruleMatches (rule : FeatureRule) (context : UserContext) : Bool :=
  rule.conditions.all fun condition => conditionMatches condition context

/-- JavaScript `Set.prototype.add`: appends the element at the end of the
insertion order unless it is already present. -/
def jsSetAdd (s : List String) (x : String) : List String :=
  if x ∈ s then s else s ++ [x]

/-- Lexicographic strict comparison of character lists by code point; this is
what the default `Array.prototype.sort()` comparator computes on strings. -/
def charListLt : List Char → List Char → Bool
  | [], [] => false
  | [], _ :: _ => true
  | _ :: _, [] => false
  | a :: as, b :: bs => a < b || (a = b && charListLt as bs)

/-- Strict lexicographic order on strings (by code point). -/
def strLt (a b : String) : Bool :=
  charListLt a.data b.data

/-- Non-strict lexicographic order on strings. -/
def strLe (a b : String) : Bool :=
  strLt a b || a = b

/-- One insertion step of the sort modelling `Array.prototype.sort()`. -/
def sortInsert (x : String) : List String → List String
  | [] => [x]
  | y :: ys => if strLe x y then x :: y :: ys else y :: sortInsert x ys

/-- `Array.prototype.sort()` with the default comparator on an array of
strings: the (unique, as the inputs here are duplicate-free) lexicographically
ascending reordering, modelled by insertion sort. -/
def jsSort : List String → List String
  | [] => []
  | x :: xs => sortInsert x (jsSort xs)

/-- `RuleEngine.evaluateRules` (`src/src/engine/RuleEngine.ts:34-47`): walk the
rules in order, add every feature of each matching rule to a `Set`, then
return the sorted array of the collected features. -/
def evaluateRules (rules : List FeatureRule) (context : UserContext) : List String :=
  let enabledFeatures :=
    rules.foldl
      (fun acc rule =>
        if ruleMatches rule context then rule.features.foldl jsSetAdd acc else acc)
      []
  jsSort enabledFeatures

example : evaluateRules
    [{ id := "r1",
       conditions := [{ attr := "plan", operator := "equals", value := .str "Pro" }],
       features := ["b-f", "a-f"] },
     { id := "r2",
       conditions := [{ attr := "region", operator := "in", value := .arr ["US", "EU"] }],
       features := ["a-f", "c-f"] }]
    { userId := "u1", region := "US", plan := "Pro" }
    = ["a-f", "b-f", "c-f"] := by decide

example : evaluateRules
    [{ id := "r1",
       conditions := [{ attr := "plan", operator := "equals", value := .str "Pro" }],
       features := ["b-f", "a-f"] }]
    { userId := "u1", region := "US", plan := "Basic" }
    = [] := by decide

/-! ### JSON-like documents and JavaScript value semantics

`ConfigurationLoader.validateConfiguration` receives whatever `js-yaml`
produced — "any JSON-like value".  `JValue` is that document tree; a missing
property (JavaScript `undefined`) is `Option.none` at use sites.  Aliasing
(two positions holding the same object reference) is not representable in a
tree, so `Set` membership (SameValueZero) compares primitives by value and
treats distinct composite nodes as distinct references (never equal). -/
inductive JValue where
  | null
  | bool (b : Bool)
  | num (n : Int)
  | str (s : String)
  | arr (elems : List JValue)
  | obj (fields : List (String × JValue))

/-- JavaScript truthiness of a defined value. -/
def JValue.truthy : JValue → Bool
  | .null => false
  | .bool b => b
  | .num n => n != 0
  | .str s => s != ""
  | .arr _ => true
  | .obj _ => true

/-- `typeof v === 'object'` (true for objects, arrays and `null`). -/
def jsTypeofObject : JValue → Bool
  | .null => true
  | .arr _ => true
  | .obj _ => true
  | _ => false

/-- Property access `v[key]`; `none` is JavaScript `undefined`.  Arrays and
primitives have none of the properties read by the validator. -/
def jsGet : JValue → String → Option JValue
  | .obj fields, key => fields.lookup key
  | _, _ => none

/-- `String.prototype.trim()`. -/
def jsTrim (s : String) : String :=
  String.mk (((s.data.dropWhile Char.isWhitespace).reverse.dropWhile Char.isWhitespace).reverse)

mutual

/-- String conversion used by template-literal interpolation
(`Array.prototype.toString` joins with commas, rendering `null` holes as
empty). -/
def jsToString : JValue → String
  | .null => "null"
  | .bool b => cond b "true" "false"
  | .num n => toString n
  | .str s => s
  | .arr xs => String.intercalate "," (jsToStringElems xs)
  | .obj _ => "[object Object]"

/-- Rendering of the elements of an array for `jsToString`. -/
def jsToStringElems : List JValue → List String
  | [] => []
  | .null :: rest => "" :: jsToStringElems rest
  | v :: rest => jsToString v :: jsToStringElems rest

end

/-- Interpolation of a possibly-`undefined` value. -/
def jsToStringOpt : Option JValue → String
  | none => "undefined"
  | some v => jsToString v

/-- SameValueZero, the equality used by `Set.prototype.has`: primitives by
value; composite nodes are compared by reference, and two distinct document
nodes are distinct references. -/
def sameValueZero : JValue → JValue → Bool
  | .null, .null => true
  | .bool a, .bool b => a == b
  | .num a, .num b => a == b
  | .str a, .str b => a == b
  | _, _ => false

/-- `set.has(v)` for a possibly-`undefined` `v` (`has(undefined)` is false on
the sets built here, whose elements are defined values). -/
def jsSetHas (s : List JValue) (v : Option JValue) : Bool :=
  match v with
  | some x => s.any fun e => sameValueZero e x
  | none => false

/-- `x || d` (JavaScript) for a possibly-`undefined` `x`. -/
def jsOrElse (v : Option JValue) (d : JValue) : JValue :=
  match v with
  | some x => if x.truthy then x else d
  | none => d

/-- `new Set(v)`: arrays list their elements, strings their characters; any
other operand is not iterable and throws a `TypeError`. -/
def jsNewSet : JValue → Except String (List JValue)
  | .arr xs => .ok xs
  | .str s => .ok (s.data.map fun c => .str (String.mk [c]))
  | _ => .error "TypeError: value is not iterable"

/-- `!v || typeof v !== 'object'` failing, i.e. a truthy object. -/
def jsIsObjecty (v : JValue) : Bool :=
  v.truthy && jsTypeofObject v

/-- `typeof v === 'string' && v.trim().length > 0` for an array element. -/
def isNonBlankStr : JValue → Bool
  | .str s => jsTrim s != ""
  | _ => false

/-- `!(!p || typeof p !== 'string' || p.trim().length === 0)` — the validity
test applied to `feature.id`, `feature.name` and `rule.id`. -/
def isNonBlankStrProp : Option JValue → Bool
  | some (.str s) => s != "" && jsTrim s != ""
  | _ => false

/-- `p = some (.str s)` with `s = key` — the shape of an `===` comparison of a
property against a string literal. -/
def isStrVal (v : Option JValue) (key : String) : Bool :=
  match v with
  | some (.str s) => s == key
  | _ => false

/-- `ValidationResult` from `src/types`. -/
structure ValidationResult where
  isValid : Bool
  errors : List String
deriving Repr, DecidableEq

/-! ### `ConfigurationLoader.validateConfiguration`
(`src/src/config/ConfigurationLoader.ts:79-270`), section by section.  Errors
are accumulated in push order; a JavaScript `TypeError` escaping the method is
an `Except.error`. -/

/-- `supportedPlans` checks (`ConfigurationLoader.ts:89-99`). -/
def supportedPlansErrors (v : Option JValue) : List String :=
  match v with
  | some (.arr xs) =>
    if xs.isEmpty then ["supportedPlans cannot be empty"]
    else if !(xs.all isNonBlankStr) then ["All supportedPlans must be non-empty strings"]
    else []
  | _ => ["supportedPlans must be an array"]

/-- `supportedRegions` checks (`ConfigurationLoader.ts:101-111`). -/
def supportedRegionsErrors (v : Option JValue) : List String :=
  match v with
  | some (.arr xs) =>
    if xs.isEmpty then ["supportedRegions cannot be empty"]
    else if !(xs.all isNonBlankStr) then ["All supportedRegions must be non-empty strings"]
    else []
  | _ => ["supportedRegions must be an array"]

/-- The per-feature validity test on `feature.id`
(`!feature.id || typeof feature.id !== 'string' || feature.id.trim().length === 0`):
`some s` when the id is a usable non-blank string. -/
def idStringOf (v : Option JValue) : Option String :=
  match v with
  | some (.str s) => if s != "" && jsTrim s != "" then some s else none
  | _ => none

/-- One iteration of the `config.features.forEach` body
(`ConfigurationLoader.ts:120-158`): the messages pushed for this entry and the
`featureIds` set as the iteration leaves it.  The early `return`s of the
callback correspond to the three short-circuiting branches. -/
def featureEntry (featureIds : List String) (index : Nat) (feature : JValue) :
    List String × List String :=
  if !jsIsObjecty feature then
    (["Feature at index " ++ toString index ++ " must be an object"], featureIds)
  else
    match idStringOf (jsGet feature "id") with
    | none =>
      (["Feature at index " ++ toString index ++ " must have a non-empty id"], featureIds)
    | some s =>
      if s ∈ featureIds then
        (["Duplicate feature id: " ++ s], featureIds)
      else
        ((if !(isNonBlankStrProp (jsGet feature "name")) then
            ["Feature " ++ s ++ " must have a non-empty name"] else [])
          ++ (match jsGet feature "description" with
              | none => []
              | some (.str d) =>
                if jsTrim d = "" then
                  ["Feature " ++ s ++ " description must be a non-empty string if provided"]
                else []
              | some _ =>
                ["Feature " ++ s ++ " description must be a non-empty string if provided"]),
          featureIds ++ [s])

/-- The `config.features.forEach` loop, threading the `featureIds` set and the
element index through `featureEntry`. -/
def featuresLoop (featureIds : List String) (index : Nat) : List JValue → List String
  | [] => []
  | feature :: rest =>
    (featureEntry featureIds index feature).1
      ++ featuresLoop (featureEntry featureIds index feature).2 (index + 1) rest

/-- `features` section checks (`ConfigurationLoader.ts:113-159`). -/
def featuresSectionErrors (v : Option JValue) : List String :=
  match v with
  | some (.arr xs) =>
    if xs.isEmpty then ["features cannot be empty"] else featuresLoop [] 0 xs
  | _ => ["features must be an array"]

/-- `new Set(config.features?.map((f) => f.id) || [])`
(`ConfigurationLoader.ts:167-169`).  `?.` passes any non-nullish `features`
through to `.map`, so a non-array truthy `features` raises a `TypeError`
(`.map` is not a function), as does an array containing `null` (reading `id`
of `null` inside the callback).  An element without an `id` contributes
JavaScript `undefined` (`Option.none`). -/
def validFeatureIdsOf : Option JValue → Except String (List (Option JValue))
  | none => .ok []
  | some .null => .ok []
  | some (.arr xs) =>
    xs.mapM fun f =>
      match f with
      | .null => .error "TypeError: Cannot read properties of null (reading id)"
      | .obj fields => .ok (fields.lookup "id")
      | _ => .ok none
  | some _ => .error "TypeError: config.features.map is not a function"

/-- `rule.id || index`, as interpolated into rule-level error messages. -/
def ruleLabel (index : Nat) (rule : JValue) : String :=
  match jsGet rule "id" with
  | some v => if v.truthy then jsToString v else toString index
  | none => toString index

/-- Membership of a rule-feature string in the `validFeatureIds` set
(`Set.prototype.has` with SameValueZero; `undefined` entries never match a
string). -/
def hasFeatureId (ids : List (Option JValue)) (s : String) : Bool :=
  ids.any fun o =>
    match o with
    | some v => sameValueZero v (.str s)
    | none => false

/-- The `rule.conditions.forEach` body (`ConfigurationLoader.ts:192-240`). -/
def conditionErrors (validPlans validRegions : List JValue) (label : String)
    (condIndex : Nat) (condition : JValue) : List String :=
  if !jsIsObjecty condition then
    ["Rule " ++ label ++ " condition " ++ toString condIndex ++ " must be an object"]
  else
    let attrV := jsGet condition "attribute"
    let opV := jsGet condition "operator"
    let valV := jsGet condition "value"
    (if !(isStrVal attrV "plan" || isStrVal attrV "region" || isStrVal attrV "userId") then
        ["Rule " ++ label ++ " condition " ++ toString condIndex
          ++ " has invalid attribute: " ++ jsToStringOpt attrV]
      else [])
    ++ (if !(isStrVal opV "equals" || isStrVal opV "in") then
        ["Rule " ++ label ++ " condition " ++ toString condIndex
          ++ " has invalid operator: " ++ jsToStringOpt opV]
      else [])
    ++ (match valV with
        | none => ["Rule " ++ label ++ " condition " ++ toString condIndex ++ " must have a value"]
        | some .null =>
          ["Rule " ++ label ++ " condition " ++ toString condIndex ++ " must have a value"]
        | some _ => [])
    ++ (if isStrVal attrV "plan" && isStrVal opV "equals" then
        if !(jsSetHas validPlans valV) then
          ["Rule " ++ label ++ " references undefined plan: " ++ jsToStringOpt valV]
        else []
      else [])
    ++ (if isStrVal attrV "region" && isStrVal opV "equals" then
        if !(jsSetHas validRegions valV) then
          ["Rule " ++ label ++ " references undefined region: " ++ jsToStringOpt valV]
        else []
      else [])

/-- The conditions loop with its running index. -/
def conditionsLoop (validPlans validRegions : List JValue) (label : String)
    (condIndex : Nat) : List JValue → List String
  | [] => []
  | c :: cs =>
    conditionErrors validPlans validRegions label condIndex c
      ++ conditionsLoop validPlans validRegions label (condIndex + 1) cs

/-- The `rule.features.forEach` body (`ConfigurationLoader.ts:248-261`). -/
def featureRefErrors (validFeatureIds : List (Option JValue)) (label : String)
    (featureId : JValue) : List String :=
  match featureId with
  | .str s =>
    if jsTrim s = "" then ["Rule " ++ label ++ " has invalid feature id: " ++ s]
    else if !(hasFeatureId validFeatureIds s) then
      ["Rule " ++ label ++ " references undefined feature: " ++ s]
    else []
  | v => ["Rule " ++ label ++ " has invalid feature id: " ++ jsToString v]

/-- The `config.rules.forEach` body (`ConfigurationLoader.ts:173-263`). -/
def ruleErrors (validFeatureIds : List (Option JValue))
    (validPlans validRegions : List JValue) (index : Nat) (rule : JValue) : List String :=
  if !jsIsObjecty rule then
    ["Rule at index " ++ toString index ++ " must be an object"]
  else
    let label := ruleLabel index rule
    (if !(isNonBlankStrProp (jsGet rule "id")) then
        ["Rule at index " ++ toString index ++ " must have a non-empty id"]
      else [])
    ++ (match jsGet rule "conditions" with
        | some (.arr cs) =>
          if cs.isEmpty then ["Rule " ++ label ++ " must have non-empty conditions array"]
          else conditionsLoop validPlans validRegions label 0 cs
        | _ => ["Rule " ++ label ++ " must have non-empty conditions array"])
    ++ (match jsGet rule "features" with
        | some (.arr fs) =>
          if fs.isEmpty then ["Rule " ++ label ++ " must have non-empty features array"]
          else fs.flatMap (featureRefErrors validFeatureIds label)
        | _ => ["Rule " ++ label ++ " must have non-empty features array"])

/-- The rules loop with its running index. -/
def rulesLoop (validFeatureIds : List (Option JValue))
    (validPlans validRegions : List JValue) (index : Nat) : List JValue → List String
  | [] => []
  | r :: rs =>
    ruleErrors validFeatureIds validPlans validRegions index r
      ++ rulesLoop validFeatureIds validPlans validRegions (index + 1) rs

/-- `rules` section checks (`ConfigurationLoader.ts:161-264`), including the
three set constructions that can throw. -/
def rulesSectionErrors (config : JValue) : Except String (List String) :=
  match jsGet config "rules" with
  | some (.arr rs) =>
    if rs.isEmpty then .ok ["rules cannot be empty"]
    else do
      let validFeatureIds ← validFeatureIdsOf (jsGet config "features")
      let validPlans ← jsNewSet (jsOrElse (jsGet config "supportedPlans") (.arr []))
      let validRegions ← jsNewSet (jsOrElse (jsGet config "supportedRegions") (.arr []))
      .ok (rulesLoop validFeatureIds validPlans validRegions 0 rs)
  | _ => .ok ["rules must be an array"]

/-- `ConfigurationLoader.validateConfiguration`
(`src/src/config/ConfigurationLoader.ts:79-270`). -/
def validateConfiguration (config : JValue) : Except String ValidationResult :=
  if !(config.truthy && jsTypeofObject config) then
    .ok { isValid := false, errors := ["Configuration must be an object"] }
  else do
    let e1 := supportedPlansErrors (jsGet config "supportedPlans")
    let e2 := supportedRegionsErrors (jsGet config "supportedRegions")
    let e3 := featuresSectionErrors (jsGet config "features")
    let e4 ← rulesSectionErrors config
    let errors := e1 ++ e2 ++ e3 ++ e4
    .ok { isValid := errors.isEmpty, errors := errors }

/-! ### Error-message constants (`EvaluationError` in `src/types`). -/

namespace EvaluationError

def CONFIG_NOT_LOADED : String := "Configuration not loaded - call loadConfiguration first"

def MISSING_CONTEXT : String := "Missing or null user context"

def INVALID_USER_ID : String := "Invalid or empty userId"

def UNSUPPORTED_REGION : String := "Unsupported region"

def UNSUPPORTED_PLAN : String := "Unsupported plan"

end EvaluationError

/-! ### `InputValidatorImpl` (`src/src/validation/InputValidator.ts`). -/

/-- `isValidUserId` (`InputValidator.ts:73-90`): rejects falsy (empty) and
whitespace-only identifiers. -/
def isValidUserId (userId : String) : Bool :=
  userId != "" && jsTrim userId != ""

/-- `isValidRegion` (`InputValidator.ts:97-105`). -/
def isValidRegion (configuration : FeatureFlagConfiguration) (region : String) : Bool :=
  region != "" && configuration.supportedRegions.contains region

/-- `isValidPlan` (`InputValidator.ts:112-120`). -/
def isValidPlan (configuration : FeatureFlagConfiguration) (plan : String) : Bool :=
  plan != "" && configuration.supportedPlans.contains plan

/-- `InputValidatorImpl.validate` (`InputValidator.ts:32-66`); the class's
`configuration?` field is the first argument, a nullish context is `none`. -/
def validateInput (configuration : Option FeatureFlagConfiguration)
    (context : Option UserContext) : ValidationResult :=
  match configuration with
  | none => { isValid := false, errors := [EvaluationError.CONFIG_NOT_LOADED] }
  | some config =>
    match context with
    | none => { isValid := false, errors := [EvaluationError.MISSING_CONTEXT] }
    | some ctx =>
      let errors :=
        (if !(isValidUserId ctx.userId) then [EvaluationError.INVALID_USER_ID] else [])
          ++ (if !(isValidRegion config ctx.region) then [EvaluationError.UNSUPPORTED_REGION] else [])
          ++ (if !(isValidPlan config ctx.plan) then [EvaluationError.UNSUPPORTED_PLAN] else [])
      { isValid := errors.isEmpty, errors := errors }

/-! ### The configurable rule engine and the evaluator. -/

/-- Modelled from the spec: the body of the current `RuleEngine` class (the
one with `setConfiguration`, exercised by the repository's tests) is not among
the available sources — only its interface, callers and tests are.  Per the
spec, the engine has exactly two states, `Unconfigured` and `Configured c`,
captured by an optional held configuration. -/
structure RuleEngineState where
  configuration : Option FeatureFlagConfiguration

/-- Modelled from the spec: a freshly constructed engine holds no
configuration. -/
def RuleEngineState.fresh : RuleEngineState :=
  { configuration := none }

/-- Modelled from the spec: `setConfiguration(config)` stores the
configuration, atomically replacing any prior one. -/
def RuleEngineState.setConfiguration (_ : RuleEngineState)
    (config : FeatureFlagConfiguration) : RuleEngineState :=
  { configuration := some config }

/-- The rule-matching algorithm, under a name visible from inside the
`RuleEngineState` namespace. -/
def evaluateRulesAlgorithm : List FeatureRule → UserContext → List String :=
  evaluateRules

/-- Modelled from the spec: `evaluateRules(context)` fails with the
"configuration not loaded" signal when unconfigured (the thrown-`Error`
message asserted by the repository's tests), and otherwise runs the
rule-matching algorithm of `src/src/engine/RuleEngine.ts:34-47` on the held
configuration's rules. -/
def RuleEngineState.evaluateRules (engine : RuleEngineState)
    (context : UserContext) : Except String (List String) :=
  match engine.configuration with
  | none => .error "Configuration not loaded - call setConfiguration first"
  | some config => .ok (evaluateRulesAlgorithm config.rules context)

/-- One engine invocation as a state transition: the method only reads the
held configuration, so the state component is returned unchanged. -/
def RuleEngineState.evaluateRulesCall (engine : RuleEngineState)
    (context : UserContext) : Except String (List String) × RuleEngineState :=
  (engine.evaluateRules context, engine)

/-- A sequence of `n` engine invocations with the same context, each starting
from the state the previous call left behind. -/
def RuleEngineState.evaluateRulesSeq (engine : RuleEngineState)
    (context : UserContext) : Nat → List (Except String (List String))
  | 0 => []
  | n + 1 =>
    let call := engine.evaluateRulesCall context
    call.1 :: call.2.evaluateRulesSeq context n

/-- `EvaluationResult` from `src/types`: `success` plus the two optional
payload fields. -/
structure EvaluationResult where
  success : Bool
  features : Option (List String)
  error : Option String
deriving Repr, DecidableEq

/-- The mutable fields of `FeatureFlagEvaluator`
(`src/src/FeatureFlagEvaluator.ts:29-39`): its own `configuration?` plus the
configurations held by its `InputValidatorImpl` and `RuleEngine` members. -/
structure FeatureFlagEvaluatorState where
  configuration : Option FeatureFlagConfiguration
  inputValidator : Option FeatureFlagConfiguration
  ruleEngine : RuleEngineState

/-- `FeatureFlagEvaluator.evaluate` (`src/src/FeatureFlagEvaluator.ts:74-113`):
configuration check, then input validation (first error wins, with the
`errors[0] || 'Validation failed'` fallback), then rule evaluation with the
engine's thrown error caught into an error result. -/
def FeatureFlagEvaluatorState.evaluate (st : FeatureFlagEvaluatorState)
    (context : UserContext) : EvaluationResult :=
  match st.configuration with
  | none =>
    { success := false, features := none, error := some EvaluationError.CONFIG_NOT_LOADED }
  | some _ =>
    let validationResult := validateInput st.inputValidator (some context)
    if !validationResult.isValid then
      { success := false, features := none,
        error := some (match validationResult.errors with
          | [] => "Validation failed"
          | e :: _ => if e = "" then "Validation failed" else e) }
    else
      match st.ruleEngine.evaluateRules context with
      | .error msg => { success := false, features := none, error := some msg }
      | .ok enabledFeatures =>
        { success := true, features := some enabledFeatures, error := none }

/-! ### Lemmas about the lexicographic order and the modelled sort. -/

lemma charListLt_irrefl : ∀ l : List Char, charListLt l l = false := by
  intro l
  induction l with
  | nil => simp [charListLt]
  | cons a as ih => simp [charListLt, ih]

lemma charListLt_trans :
    ∀ l m n : List Char, charListLt l m = true → charListLt m n = true →
      charListLt l n = true := by
  intro l
  induction l with
  | nil =>
    intro m n hlm hmn
    cases m with
    | nil => simp [charListLt] at hlm
    | cons b bs =>
      cases n with
      | nil => simp [charListLt] at hmn
      | cons c cs => simp [charListLt]
  | cons a as ih =>
    intro m n hlm hmn
    cases m with
    | nil => simp [charListLt] at hlm
    | cons b bs =>
      cases n with
      | nil => simp [charListLt] at hmn
      | cons c cs =>
        simp only [charListLt, Bool.or_eq_true, Bool.and_eq_true, decide_eq_true_eq] at hlm hmn ⊢
        rcases hlm with hab | ⟨hab, hlt⟩
        · rcases hmn with hbc | ⟨hbc, _⟩
          · exact Or.inl (lt_trans hab hbc)
          · exact Or.inl (hbc ▸ hab)
        · rcases hmn with hbc | ⟨hbc, hlt2⟩
          · exact Or.inl (hab ▸ hbc)
          · exact Or.inr ⟨hab.trans hbc, ih bs cs hlt hlt2⟩

lemma charListLt_total :
    ∀ l m : List Char, charListLt l m = true ∨ l = m ∨ charListLt m l = true := by
  intro l
  induction l with
  | nil =>
    intro m
    cases m with
    | nil => simp [charListLt]
    | cons b bs => simp [charListLt]
  | cons a as ih =>
    intro m
    cases m with
    | nil => simp [charListLt]
    | cons b bs =>
      rcases lt_trichotomy a b with hab | hab | hab
      · exact Or.inl (by simp [charListLt, hab])
      · subst hab
        rcases ih bs with h | h | h
        · exact Or.inl (by simp [charListLt, h])
        · exact Or.inr (Or.inl (by rw [h]))
        · exact Or.inr (Or.inr (by simp [charListLt, h]))
      · exact Or.inr (Or.inr (by simp [charListLt, hab]))

lemma strLt_ne {a b : String} (h : strLt a b = true) : a ≠ b := by
  intro hab
  subst hab
  simp [strLt, charListLt_irrefl] at h

lemma strLt_trans {a b c : String} (hab : strLt a b = true) (hbc : strLt b c = true) :
    strLt a c = true :=
  charListLt_trans _ _ _ hab hbc

lemma strLe_of_not_strLe {a b : String} (h : ¬ strLe a b = true) : strLe b a = true := by
  unfold strLe strLt at *
  rcases charListLt_total a.data b.data with hlt | heq | hlt
  · exact absurd (by simp [hlt]) h
  · exact absurd (by simp [String.ext heq]) h
  · simp [hlt]

lemma strLe_trans {a b c : String} (hab : strLe a b = true) (hbc : strLe b c = true) :
    strLe a c = true := by
  unfold strLe at *
  simp only [Bool.or_eq_true, decide_eq_true_eq] at hab hbc ⊢
  rcases hab with hab | hab
  · rcases hbc with hbc | hbc
    · exact Or.inl (strLt_trans hab hbc)
    · exact Or.inl (hbc ▸ hab)
  · subst hab
    exact hbc

lemma strLt_of_strLe_of_ne {a b : String} (h : strLe a b = true) (hne : a ≠ b) :
    strLt a b = true := by
  unfold strLe at h
  simp only [Bool.or_eq_true, decide_eq_true_eq] at h
  exact h.resolve_right hne

lemma mem_sortInsert (x a : String) :
    ∀ l : List String, a ∈ sortInsert x l ↔ a = x ∨ a ∈ l := by
  intro l
  induction l with
  | nil => simp [sortInsert]
  | cons y ys ih =>
    by_cases h : strLe x y = true
    · simp [sortInsert, h]
    · simp only [sortInsert, if_neg h, List.mem_cons, ih]
      tauto

lemma sortInsert_perm (x : String) :
    ∀ l : List String, (sortInsert x l).Perm (x :: l) := by
  intro l
  induction l with
  | nil => simp [sortInsert]
  | cons y ys ih =>
    by_cases h : strLe x y = true
    · simp [sortInsert, h]
    · rw [sortInsert, if_neg h]
      exact ((List.Perm.cons y ih).trans (List.Perm.swap x y ys))

lemma jsSort_perm : ∀ l : List String, (jsSort l).Perm l := by
  intro l
  induction l with
  | nil => simp [jsSort]
  | cons x xs ih =>
    exact (sortInsert_perm x (jsSort xs)).trans (List.Perm.cons x ih)

lemma pairwise_strLe_sortInsert (x : String) :
    ∀ l : List String, List.Pairwise (fun a b => strLe a b = true) l →
      List.Pairwise (fun a b => strLe a b = true) (sortInsert x l) := by
  intro l
  induction l with
  | nil => simp [sortInsert]
  | cons y ys ih =>
    intro hp
    rcases List.pairwise_cons.mp hp with ⟨hy, hys⟩
    by_cases h : strLe x y = true
    · rw [sortInsert, if_pos h]
      refine List.pairwise_cons.mpr ⟨?_, hp⟩
      intro b hb
      rcases List.mem_cons.mp hb with rfl | hb
      · exact h
      · exact strLe_trans h (hy b hb)
    · rw [sortInsert, if_neg h]
      refine List.pairwise_cons.mpr ⟨?_, ih hys⟩
      intro b hb
      rcases (mem_sortInsert x b ys).mp hb with rfl | hb
      · exact strLe_of_not_strLe h
      · exact hy b hb

lemma pairwise_strLe_jsSort : ∀ l : List String,
    List.Pairwise (fun a b => strLe a b = true) (jsSort l) := by
  intro l
  induction l with
  | nil => simp [jsSort]
  | cons x xs ih => exact pairwise_strLe_sortInsert x (jsSort xs) ih

lemma pairwise_strLt_jsSort {l : List String} (hnd : l.Nodup) :
    List.Pairwise (fun a b => strLt a b = true) (jsSort l) := by
  have hnd2 : (jsSort l).Nodup := ((jsSort_perm l).nodup_iff).mpr hnd
  have hle := pairwise_strLe_jsSort l
  have := List.Pairwise.and hle (List.Pairwise.imp (fun hab => hab) hnd2)
  exact this.imp fun ⟨h1, h2⟩ => strLt_of_strLe_of_ne h1 h2

lemma mem_jsSort {a : String} {l : List String} : a ∈ jsSort l ↔ a ∈ l :=
  (jsSort_perm l).mem_iff

lemma mem_jsSetAdd {a x : String} {s : List String} :
    a ∈ jsSetAdd s x ↔ a ∈ s ∨ a = x := by
  unfold jsSetAdd
  by_cases h : x ∈ s
  · simp only [if_pos h]
    constructor
    · exact Or.inl
    · rintro (hs | rfl)
      · exact hs
      · exact h
  · simp [if_neg h]

lemma nodup_jsSetAdd {x : String} {s : List String} (h : s.Nodup) :
    (jsSetAdd s x).Nodup := by
  unfold jsSetAdd
  by_cases hx : x ∈ s
  · simpa [if_pos hx] using h
  · rw [if_neg hx]
    simpa [List.nodup_append] using ⟨h, hx⟩

lemma mem_foldl_jsSetAdd {a : String} :
    ∀ (fs : List String) (acc : List String),
      a ∈ fs.foldl jsSetAdd acc ↔ a ∈ acc ∨ a ∈ fs := by
  intro fs
  induction fs with
  | nil => simp
  | cons f fs ih =>
    intro acc
    simp only [List.foldl_cons, ih, mem_jsSetAdd, List.mem_cons]
    tauto

lemma nodup_foldl_jsSetAdd :
    ∀ (fs : List String) (acc : List String), acc.Nodup →
      (fs.foldl jsSetAdd acc).Nodup := by
  intro fs
  induction fs with
  | nil => exact fun acc h => h
  | cons f fs ih =>
    intro acc h
    exact ih (jsSetAdd acc f) (nodup_jsSetAdd h)

/-- The `Set` accumulated over the rules loop of `evaluateRules` holds exactly
the features of the matching rules. -/
lemma mem_collectFeatures {a : String} (context : UserContext) :
    ∀ (rules : List FeatureRule) (acc : List String),
      a ∈ rules.foldl
          (fun acc rule =>
            if ruleMatches rule context then rule.features.foldl jsSetAdd acc else acc)
          acc
        ↔ a ∈ acc ∨ ∃ r, r ∈ rules ∧ ruleMatches r context = true ∧ a ∈ r.features := by
  intro rules
  induction rules with
  | nil => simp
  | cons r rs ih =>
    intro acc
    simp only [List.foldl_cons, ih, List.mem_cons]
    by_cases h : ruleMatches r context = true
    · simp only [if_pos h, mem_foldl_jsSetAdd]
      constructor
      · rintro (⟨ha | hf⟩ | ⟨q, hq, hm, haf⟩)
        · exact Or.inl ha
        · exact Or.inr ⟨r, Or.inl rfl, h, hf⟩
        · exact Or.inr ⟨q, Or.inr hq, hm, haf⟩
      · rintro (ha | ⟨q, rfl | hq, hm, haf⟩)
        · exact Or.inl (Or.inl ha)
        · exact Or.inl (Or.inr haf)
        · exact Or.inr ⟨q, hq, hm, haf⟩
    · simp only [if_neg h]
      constructor
      · rintro (ha | ⟨q, hq, hm, haf⟩)
        · exact Or.inl ha
        · exact Or.inr ⟨q, Or.inr hq, hm, haf⟩
      · rintro (ha | ⟨q, rfl | hq, hm, haf⟩)
        · exact Or.inl ha
        · exact absurd hm h
        · exact Or.inr ⟨q, hq, hm, haf⟩

lemma nodup_collectFeatures (context : UserContext) :
    ∀ (rules : List FeatureRule) (acc : List String), acc.Nodup →
      (rules.foldl
          (fun acc rule =>
            if ruleMatches rule context then rule.features.foldl jsSetAdd acc else acc)
          acc).Nodup := by
  intro rules
  induction rules with
  | nil => exact fun acc h => h
  | cons r rs ih =>
    intro acc h
    by_cases hm : ruleMatches r context = true
    · simpa [if_pos hm] using ih _ (nodup_foldl_jsSetAdd r.features acc h)
    · simpa [if_neg hm] using ih acc h

/-! ### Claim theorems about the rule engine. -/

/-- C1: for every configuration and user context, `evaluateRules` returns
exactly the sorted (strictly ascending lexicographic, hence deduplicated)
union of the `features` lists of the rules all of whose conditions match the
context; a feature appears in the result precisely when some matching rule
lists it, so features of non-matching rules never appear. -/
theorem evaluateRules_sorted_dedup_union (rules : List FeatureRule) (context : UserContext) :
    (∀ f, f ∈ evaluateRules rules context ↔
        ∃ r, r ∈ rules ∧ ruleMatches r context = true ∧ f ∈ r.features)
    ∧ List.Pairwise (fun a b => strLt a b = true) (evaluateRules rules context) := by
  constructor
  · intro f
    simp only [evaluateRules, mem_jsSort, mem_collectFeatures, List.not_mem_nil, false_or]
  · simp only [evaluateRules]
    exact pairwise_strLt_jsSort (nodup_collectFeatures context rules [] List.nodup_nil)

/-- C2: on a freshly constructed engine on which `setConfiguration` was never
called, `evaluateRules` fails with the "configuration not loaded" signal (it
never produces a feature list) for every user context. -/
theorem fresh_engine_evaluateRules_not_configured (context : UserContext) :
    RuleEngineState.fresh.evaluateRules context
      = Except.error "Configuration not loaded - call setConfiguration first" :=
  rfl

/-- C4: under operator `equals` a condition matches exactly when the context's
attribute value is string-equal to `condition.value`; under `in` with an array
value, exactly when the attribute value occurs in the array; under `in` with a
bare string value, exactly as `equals`; any operator outside
{`equals`, `in`} never matches (and `conditionMatches` is a total function,
so no exception is possible). -/
theorem conditionMatches_operator_semantics (condition : RuleCondition) (context : UserContext) :
    conditionMatches condition context = true ↔
      ((condition.operator = "equals"
          ∧ condition.value = CondValue.str (getContextValue condition.attr context))
        ∨ (condition.operator = "in"
            ∧ ((∃ xs, condition.value = CondValue.arr xs
                  ∧ getContextValue condition.attr context ∈ xs)
              ∨ condition.value = CondValue.str (getContextValue condition.attr context)))) := by
  unfold conditionMatches
  by_cases he : condition.operator = "equals"
  · cases hv : condition.value with
    | str s => simp [he, hv, eq_comm]
    | arr xs => simp [he, hv]
  · by_cases hi : condition.operator = "in"
    · cases hv : condition.value with
      | str s => simp [he, hi, hv, eq_comm]
      | arr xs => simp [he, hi, hv, eq_comm]
    · simp [he, hi]

/-- C8: every result of `FeatureFlagEvaluator.evaluate` has mutually exclusive
payloads — on success a feature list and no error string, on failure a single
error string and no feature list. -/
theorem evaluate_success_error_exclusive (st : FeatureFlagEvaluatorState) (context : UserContext) :
    ((st.evaluate context).success = true
        ∧ (∃ fs, (st.evaluate context).features = some fs)
        ∧ (st.evaluate context).error = none)
      ∨ ((st.evaluate context).success = false
          ∧ (st.evaluate context).features = none
          ∧ (∃ e, (st.evaluate context).error = some e)) := by
  unfold FeatureFlagEvaluatorState.evaluate
  cases st.configuration with
  | none => right; exact ⟨rfl, rfl, _, rfl⟩
  | some config =>
    by_cases hv : (validateInput st.inputValidator (some context)).isValid
    · cases heng : st.ruleEngine.evaluateRules context with
      | error msg => right; simp [hv, heng]
      | ok fs => left; simp [hv, heng]
    · right
      simp [hv]

/-- C9: `evaluateRules` is deterministic — a sequence of `n` invocations with
the same context, each starting from the state left by the previous call,
returns the same (list-identical) result every time. -/
theorem evaluateRules_repeated_calls_equal (engine : RuleEngineState)
    (context : UserContext) (n : Nat) :
    engine.evaluateRulesSeq context n = List.replicate n (engine.evaluateRules context) := by
  induction n with
  | zero => rfl
  | succ n ih =>
    simp only [RuleEngineState.evaluateRulesSeq, RuleEngineState.evaluateRulesCall,
      List.replicate_succ, ih]

/-- C10: a condition whose attribute is none of `userId`/`region`/`plan` reads
the context value as the empty string (the engine does not fail); hence with
`equals` it matches exactly the empty-string value, and with `in` it matches
exactly when the empty string is the bare value or occurs in the value
array — never a non-empty value. -/
theorem unknown_attribute_defaults_empty (a : String) (context : UserContext)
    (v : CondValue) (h1 : a ≠ "userId") (h2 : a ≠ "region") (h3 : a ≠ "plan") :
    getContextValue a context = ""
    ∧ (conditionMatches { attr := a, operator := "equals", value := v } context = true
        ↔ v = CondValue.str "")
    ∧ (conditionMatches { attr := a, operator := "in", value := v } context = true
        ↔ (v = CondValue.str "" ∨ ∃ xs, v = CondValue.arr xs ∧ "" ∈ xs)) := by
  have hg : getContextValue a context = "" := by
    simp [getContextValue, h1, h2, h3]
  refine ⟨hg, ?_, ?_⟩
  · cases v with
    | str s => simp [conditionMatches, hg, eq_comm]
    | arr xs => simp [conditionMatches, hg]
  · cases v with
    | str s => simp [conditionMatches, hg, eq_comm]
    | arr xs => simp [conditionMatches, hg]

/-- Witness for `unknown_attribute_defaults_empty` at the attribute
`"country"`, a concrete context and the value `"US"`. -/
theorem unknown_attribute_defaults_empty_witness :
    getContextValue "country" { userId := "u1", region := "US", plan := "Pro" } = ""
    ∧ (conditionMatches { attr := "country", operator := "equals", value := CondValue.str "US" }
          { userId := "u1", region := "US", plan := "Pro" } = true
        ↔ CondValue.str "US" = CondValue.str "")
    ∧ (conditionMatches { attr := "country", operator := "in", value := CondValue.str "US" }
          { userId := "u1", region := "US", plan := "Pro" } = true
        ↔ (CondValue.str "US" = CondValue.str ""
            ∨ ∃ xs, CondValue.str "US" = CondValue.arr xs ∧ "" ∈ xs)) :=
  unknown_attribute_defaults_empty "country" { userId := "u1", region := "US", plan := "Pro" }
    (CondValue.str "US") (by decide) (by decide) (by decide)

/-! ### Claim theorems about the configuration validator. -/

/-- A document whose `rules` section is a valid non-empty array but whose
`features` field is a truthy non-array (`"oops"`): reaching the rules section,
`config.features?.map((f) => f.id)` evaluates `"oops".map`, which is not a
function, and the `TypeError` escapes `validateConfiguration`. -/
def nonArrayFeaturesConfig : JValue :=
  .obj [("supportedPlans", .arr [.str "Basic"]),
        ("supportedRegions", .arr [.str "US"]),
        ("features", .str "oops"),
        ("rules", .arr [.obj [("id", .str "r1"),
          ("conditions", .arr [.obj [("attribute", .str "plan"),
            ("operator", .str "equals"), ("value", .str "Basic")]]),
          ("features", .arr [.str "f1"])]])]

/-- C3 (refuted — code bug): `validateConfiguration` does *not* return a
result for every input: on `nonArrayFeaturesConfig` the evaluation throws a
`TypeError` (modelled as `Except.error`) instead of returning an
`errors`-carrying result, contradicting the validator's accumulate-all-errors
design (it had already recorded "features must be an array" for this very
field rather than throwing). -/
theorem validateConfiguration_throws_on_nonarray_features :
    validateConfiguration nonArrayFeaturesConfig
      = Except.error "TypeError: config.features.map is not a function" :=
  rfl

/-- A well-formed document whose only rule carries one `in` condition on
`plan` and one `in` condition on `region`, each with an arbitrary string
array `vs` as its value. -/
def inOperatorConfig (vs : List String) : JValue :=
  .obj [("supportedPlans", .arr [.str "Basic", .str "Pro"]),
        ("supportedRegions", .arr [.str "US", .str "EU"]),
        ("features", .arr [.obj [("id", .str "f1"), ("name", .str "Feature One")]]),
        ("rules", .arr [.obj [("id", .str "r1"),
          ("conditions", .arr
            [.obj [("attribute", .str "plan"), ("operator", .str "in"),
                   ("value", .arr (vs.map JValue.str))],
             .obj [("attribute", .str "region"), ("operator", .str "in"),
                   ("value", .arr (vs.map JValue.str))]]),
          ("features", .arr [.str "f1"])]])]

lemma isStrVal_ne {v : Option JValue} {a b : String}
    (h : isStrVal v a = true) (hne : a ≠ b) : isStrVal v b = false := by
  cases v with
  | none => simp [isStrVal] at h
  | some w =>
    cases w with
    | str s =>
      simp only [isStrVal, beq_iff_eq] at h
      subst h
      simp [isStrVal, hne]
    | null => simp [isStrVal] at h
    | bool b => simp [isStrVal] at h
    | num n => simp [isStrVal] at h
    | arr xs => simp [isStrVal] at h
    | obj fs => simp [isStrVal] at h

/-- C5: referential integrity is checked only for `equals` conditions on
`plan`/`region`.  First conjunct: a document that is otherwise valid passes
validation with no errors at all, no matter what strings the `in`-condition
value arrays on `plan` and `region` hold, in particular when they include a
string `x` absent from `supportedPlans` and `supportedRegions`.  Second
conjunct, for an arbitrary condition object with operator `in` inside any
rule: the per-condition checks can produce only the invalid-attribute and
missing-value diagnostics — never a "references undefined plan/region"
error. -/
theorem in_operator_skips_referential_integrity (vs : List String) (x : String)
    (_hmem : x ∈ vs) (_hplan : x ∉ (["Basic", "Pro"] : List String))
    (_hregion : x ∉ (["US", "EU"] : List String))
    (validPlans validRegions : List JValue) (label : String) (i : Nat)
    (condition : JValue) (hcobj : jsIsObjecty condition = true)
    (hop : isStrVal (jsGet condition "operator") "in" = true) :
    validateConfiguration (inOperatorConfig vs)
      = Except.ok { isValid := true, errors := [] }
    ∧ conditionErrors validPlans validRegions label i condition
        = (if !(isStrVal (jsGet condition "attribute") "plan"
              || isStrVal (jsGet condition "attribute") "region"
              || isStrVal (jsGet condition "attribute") "userId") then
            ["Rule " ++ label ++ " condition " ++ toString i
              ++ " has invalid attribute: " ++ jsToStringOpt (jsGet condition "attribute")]
          else [])
          ++ (match jsGet condition "value" with
              | none =>
                ["Rule " ++ label ++ " condition " ++ toString i ++ " must have a value"]
              | some .null =>
                ["Rule " ++ label ++ " condition " ++ toString i ++ " must have a value"]
              | some _ => []) := by
  refine ⟨rfl, ?_⟩
  unfold conditionErrors
  rw [if_neg (by simp [hcobj])]
  have hopeq : isStrVal (jsGet condition "operator") "equals" = false :=
    isStrVal_ne hop (by decide)
  simp [hop, hopeq]

/-- Witness for `in_operator_skips_referential_integrity` with the value array
`["Enterprise"]`, `x = "Enterprise"`, and a concrete `in` condition on
`plan`. -/
theorem in_operator_skips_referential_integrity_witness :
    validateConfiguration (inOperatorConfig ["Enterprise"])
      = Except.ok { isValid := true, errors := [] }
    ∧ conditionErrors [] [] "r1" 0
        (.obj [("attribute", .str "plan"), ("operator", .str "in"),
               ("value", .arr [.str "Enterprise"])])
        = (if !(isStrVal (jsGet (.obj [("attribute", .str "plan"),
                ("operator", .str "in"), ("value", .arr [.str "Enterprise"])]) "attribute")
                  "plan"
              || isStrVal (jsGet (.obj [("attribute", .str "plan"),
                  ("operator", .str "in"), ("value", .arr [.str "Enterprise"])]) "attribute")
                  "region"
              || isStrVal (jsGet (.obj [("attribute", .str "plan"),
                  ("operator", .str "in"), ("value", .arr [.str "Enterprise"])]) "attribute")
                  "userId") then
            ["Rule " ++ "r1" ++ " condition " ++ toString 0 ++ " has invalid attribute: "
              ++ jsToStringOpt (jsGet (.obj [("attribute", .str "plan"),
                  ("operator", .str "in"), ("value", .arr [.str "Enterprise"])]) "attribute")]
          else [])
          ++ (match jsGet (.obj [("attribute", .str "plan"), ("operator", .str "in"),
                ("value", .arr [.str "Enterprise"])]) "value" with
              | none => ["Rule " ++ "r1" ++ " condition " ++ toString 0 ++ " must have a value"]
              | some .null =>
                ["Rule " ++ "r1" ++ " condition " ++ toString 0 ++ " must have a value"]
              | some _ => []) :=
  in_operator_skips_referential_integrity ["Enterprise"] "Enterprise"
    (by decide) (by decide) (by decide) [] [] "r1" 0
    (.obj [("attribute", .str "plan"), ("operator", .str "in"),
           ("value", .arr [.str "Enterprise"])]) rfl rfl

/-! ### Destructuring lemmas for a successful validation run. -/

lemma validateConfiguration_obj (fields : List (String × JValue)) :
    validateConfiguration (.obj fields)
      = (rulesSectionErrors (.obj fields)).map (fun e4 =>
          let errors := supportedPlansErrors (jsGet (.obj fields) "supportedPlans")
            ++ supportedRegionsErrors (jsGet (.obj fields) "supportedRegions")
            ++ featuresSectionErrors (jsGet (.obj fields) "features") ++ e4
          { isValid := errors.isEmpty, errors := errors }) := by
  cases h : rulesSectionErrors (.obj fields) with
  | error e =>
    simp [validateConfiguration, JValue.truthy, jsTypeofObject, h, Except.map, Bind.bind,
      Except.bind]
  | ok e4 =>
    simp [validateConfiguration, JValue.truthy, jsTypeofObject, h, Except.map, Bind.bind,
      Except.bind]

lemma validateConfiguration_ok_destruct {fields : List (String × JValue)}
    {res : ValidationResult}
    (hres : validateConfiguration (.obj fields) = Except.ok res) :
    ∃ e4, rulesSectionErrors (.obj fields) = Except.ok e4
      ∧ res.errors = supportedPlansErrors (jsGet (.obj fields) "supportedPlans")
          ++ supportedRegionsErrors (jsGet (.obj fields) "supportedRegions")
          ++ featuresSectionErrors (jsGet (.obj fields) "features") ++ e4
      ∧ res.isValid = res.errors.isEmpty := by
  rw [validateConfiguration_obj] at hres
  cases h : rulesSectionErrors (.obj fields) with
  | error e => rw [h] at hres; simp [Except.map] at hres
  | ok e4 =>
    rw [h] at hres
    simp only [Except.map, Except.ok.injEq] at hres
    subst hres
    exact ⟨e4, rfl, rfl, rfl⟩

lemma isValid_false_of_mem {res : ValidationResult} {e : String}
    (hv : res.isValid = res.errors.isEmpty) (he : e ∈ res.errors) :
    res.isValid = false := by
  rw [hv]
  cases herr : res.errors with
  | nil => rw [herr] at he; cases he
  | cons a as => rfl

lemma rulesSectionErrors_ok {fields : List (String × JValue)} {rs : List JValue}
    {ids : List (Option JValue)} {e4 : List String}
    (hrules : jsGet (.obj fields) "rules" = some (.arr rs)) (hne : rs ≠ [])
    (hids : validFeatureIdsOf (jsGet (.obj fields) "features") = Except.ok ids)
    (hok : rulesSectionErrors (.obj fields) = Except.ok e4) :
    ∃ vp vr,
      jsNewSet (jsOrElse (jsGet (.obj fields) "supportedPlans") (.arr [])) = Except.ok vp
      ∧ jsNewSet (jsOrElse (jsGet (.obj fields) "supportedRegions") (.arr [])) = Except.ok vr
      ∧ e4 = rulesLoop ids vp vr 0 rs := by
  cases hp : jsNewSet (jsOrElse (jsGet (.obj fields) "supportedPlans") (.arr [])) with
  | error e =>
    unfold rulesSectionErrors at hok
    rw [hrules] at hok
    simp [List.isEmpty_iff, hne, hids, hp, Bind.bind, Except.bind] at hok
  | ok vp =>
    cases hr : jsNewSet (jsOrElse (jsGet (.obj fields) "supportedRegions") (.arr [])) with
    | error e =>
      unfold rulesSectionErrors at hok
      rw [hrules] at hok
      simp [List.isEmpty_iff, hne, hids, hp, hr, Bind.bind, Except.bind] at hok
    | ok vr =>
      unfold rulesSectionErrors at hok
      rw [hrules] at hok
      simp [List.isEmpty_iff, hne, hids, hp, hr, Bind.bind, Except.bind, pure,
        Except.pure] at hok
      exact ⟨vp, vr, rfl, rfl, hok.symm⟩

/-! ### C6: an undefined feature reference inside a rule always surfaces. -/

lemma ruleLabel_of_id {i : Nat} {rule : JValue} {rid : String}
    (hid : jsGet rule "id" = some (.str rid)) (hne : rid ≠ "") :
    ruleLabel i rule = rid := by
  unfold ruleLabel
  rw [hid]
  simp [JValue.truthy, hne, jsToString]

lemma featureRefErrors_ghost {ids : List (Option JValue)} {label g : String}
    (hgnb : jsTrim g ≠ "") (hnot : hasFeatureId ids g = false) :
    featureRefErrors ids label (.str g)
      = ["Rule " ++ label ++ " references undefined feature: " ++ g] := by
  simp [featureRefErrors, hgnb, hnot]

lemma mem_ruleErrors_ghost {ids : List (Option JValue)} {vp vr : List JValue}
    {i : Nat} {rule : JValue} {rid g : String} {fs : List JValue}
    (hobj : jsIsObjecty rule = true)
    (hid : jsGet rule "id" = some (.str rid)) (hne : rid ≠ "")
    (hfs : jsGet rule "features" = some (.arr fs))
    (hg : JValue.str g ∈ fs) (hgnb : jsTrim g ≠ "")
    (hnot : hasFeatureId ids g = false) :
    ("Rule " ++ rid ++ " references undefined feature: " ++ g)
      ∈ ruleErrors ids vp vr i rule := by
  unfold ruleErrors
  rw [if_neg (by simp [hobj])]
  simp only [ruleLabel_of_id hid hne, hfs]
  refine List.mem_append_right _ ?_
  rw [if_neg (by simp [List.isEmpty_iff, List.ne_nil_of_mem hg])]
  exact List.mem_flatMap.mpr
    ⟨.str g, hg, by rw [featureRefErrors_ghost hgnb hnot]; exact List.mem_singleton.mpr rfl⟩

lemma mem_rulesLoop_of_mem {ids : List (Option JValue)} {vp vr : List JValue}
    {e : String} {r : JValue} (h : ∀ i : Nat, e ∈ ruleErrors ids vp vr i r) :
    ∀ (l : List JValue) (ix : Nat), r ∈ l → e ∈ rulesLoop ids vp vr ix l := by
  intro l
  induction l with
  | nil => intro ix hmem; cases hmem
  | cons a as ih =>
    intro ix hmem
    rcases List.mem_cons.mp hmem with rfl | hmem
    · exact List.mem_append_left _ (h ix)
    · exact List.mem_append_right _ (ih (ix + 1) hmem)

/-- C6: any document validated without a thrown exception in which some rule
(with a usable id) lists a non-blank feature string `g` that is not the id of
any entry of the `features` catalog fails validation, and the error list names
`g` in the form "references undefined feature: g". -/
theorem undefined_feature_reference_reported
    (fields : List (String × JValue)) (rs : List JValue) (rule : JValue)
    (rid g : String) (fs : List JValue) (ids : List (Option JValue))
    (res : ValidationResult)
    (hres : validateConfiguration (.obj fields) = Except.ok res)
    (hrules : jsGet (.obj fields) "rules" = some (.arr rs))
    (hr : rule ∈ rs)
    (hrobj : jsIsObjecty rule = true)
    (hrid : jsGet rule "id" = some (.str rid)) (hridne : rid ≠ "")
    (hfs : jsGet rule "features" = some (.arr fs))
    (hg : JValue.str g ∈ fs) (hgnb : jsTrim g ≠ "")
    (hids : validFeatureIdsOf (jsGet (.obj fields) "features") = Except.ok ids)
    (hnotid : hasFeatureId ids g = false) :
    res.isValid = false
    ∧ ("Rule " ++ rid ++ " references undefined feature: " ++ g) ∈ res.errors := by
  obtain ⟨e4, hsec, herr, hval⟩ := validateConfiguration_ok_destruct hres
  obtain ⟨vp, vr, _, _, he4⟩ :=
    rulesSectionErrors_ok hrules (List.ne_nil_of_mem hr) hids hsec
  have hmem : ("Rule " ++ rid ++ " references undefined feature: " ++ g) ∈ res.errors := by
    rw [herr, he4]
    exact List.mem_append_right _
      (mem_rulesLoop_of_mem
        (fun i => mem_ruleErrors_ghost hrobj hrid hridne hfs hg hgnb hnotid) rs 0 hr)
  exact ⟨isValid_false_of_mem hval hmem, hmem⟩

/-- The rule of the concrete ghost-feature document. -/
def ghostRule : JValue :=
  .obj [("id", .str "r1"),
        ("conditions", .arr [.obj [("attribute", .str "plan"),
          ("operator", .str "equals"), ("value", .str "Pro")]]),
        ("features", .arr [.str "f1", .str "ghost-feature"])]

/-- A concrete document whose only rule references the undefined feature id
`"ghost-feature"`. -/
def ghostFeatureFields : List (String × JValue) :=
  [("supportedPlans", .arr [.str "Basic", .str "Pro"]),
   ("supportedRegions", .arr [.str "US", .str "EU"]),
   ("features", .arr [.obj [("id", .str "f1"), ("name", .str "Feature One")]]),
   ("rules", .arr [ghostRule])]

/-- The validation result produced for the ghost-feature document. -/
def ghostResult : ValidationResult :=
  { isValid := false, errors := ["Rule r1 references undefined feature: ghost-feature"] }

/-- Witness for `undefined_feature_reference_reported` on the concrete
ghost-feature document. -/
theorem undefined_feature_reference_reported_witness :
    validateConfiguration (.obj ghostFeatureFields) = Except.ok ghostResult
    ∧ ghostResult.isValid = false
    ∧ ("Rule " ++ "r1" ++ " references undefined feature: " ++ "ghost-feature")
        ∈ ghostResult.errors :=
  ⟨rfl,
    undefined_feature_reference_reported ghostFeatureFields [ghostRule] ghostRule
      "r1" "ghost-feature" [.str "f1", .str "ghost-feature"] [some (.str "f1")]
      ghostResult
      rfl rfl (List.Mem.head _) rfl rfl (by decide) rfl
      (List.Mem.tail _ (List.Mem.head _)) (by decide) rfl rfl⟩

/-! ### C7: duplicate feature ids always surface. -/

lemma featureEntry_ids_extend (featureIds : List String) (index : Nat) (feature : JValue) :
    featureIds ⊆ (featureEntry featureIds index feature).2 := by
  unfold featureEntry
  by_cases hobj : jsIsObjecty feature = true
  · cases hid : idStringOf (jsGet feature "id") with
    | none => simp [hobj, hid]
    | some s =>
      by_cases hs : s ∈ featureIds
      · simp [hobj, hid, hs]
      · simp only [hobj, Bool.not_true, Bool.false_eq_true, if_false, hid, if_neg hs]
        exact fun y hy => List.mem_append_left _ hy
  · simp [hobj]

lemma featureEntry_dup {x : String} {f : JValue} {ids : List String} {ix : Nat}
    (hobj : jsIsObjecty f = true) (hid : idStringOf (jsGet f "id") = some x)
    (hx : x ∈ ids) :
    featureEntry ids ix f = (["Duplicate feature id: " ++ x], ids) := by
  simp [featureEntry, hobj, hid, hx]

lemma featureEntry_fresh_ids {x : String} {f : JValue} {ids : List String} {ix : Nat}
    (hobj : jsIsObjecty f = true) (hid : idStringOf (jsGet f "id") = some x)
    (hx : x ∉ ids) :
    (featureEntry ids ix f).2 = ids ++ [x] := by
  simp [featureEntry, hobj, hid, hx]

lemma dup_mem_featuresLoop_of_mem_ids {x : String} {f2 : JValue}
    (h2obj : jsIsObjecty f2 = true) (h2id : idStringOf (jsGet f2 "id") = some x) :
    ∀ (l : List JValue) (ids : List String) (ix : Nat), f2 ∈ l → x ∈ ids →
      ("Duplicate feature id: " ++ x) ∈ featuresLoop ids ix l := by
  intro l
  induction l with
  | nil => intro ids ix hmem; cases hmem
  | cons a as ih =>
    intro ids ix hmem hx
    rcases List.mem_cons.mp hmem with rfl | hmem
    · rw [featuresLoop, featureEntry_dup h2obj h2id hx]
      exact List.mem_append_left _ (List.Mem.head _)
    · rw [featuresLoop]
      exact List.mem_append_right _
        (ih (featureEntry ids ix a).2 (ix + 1) hmem (featureEntry_ids_extend ids ix a hx))

lemma dup_mem_featuresLoop {x : String} {f1 f2 : JValue} {post : List JValue}
    (h1obj : jsIsObjecty f1 = true) (h1id : idStringOf (jsGet f1 "id") = some x)
    (h2obj : jsIsObjecty f2 = true) (h2id : idStringOf (jsGet f2 "id") = some x)
    (hf2 : f2 ∈ post) :
    ∀ (pre : List JValue) (ids : List String) (ix : Nat),
      ("Duplicate feature id: " ++ x) ∈ featuresLoop ids ix (pre ++ f1 :: post) := by
  intro pre
  induction pre with
  | nil =>
    intro ids ix
    by_cases hx : x ∈ ids
    · rw [List.nil_append, featuresLoop, featureEntry_dup h1obj h1id hx]
      exact List.mem_append_left _ (List.Mem.head _)
    · rw [List.nil_append, featuresLoop, featureEntry_fresh_ids h1obj h1id hx]
      exact List.mem_append_right _
        (dup_mem_featuresLoop_of_mem_ids h2obj h2id post (ids ++ [x]) (ix + 1) hf2
          (List.mem_append_right _ (List.Mem.head _)))
  | cons a pre ih =>
    intro ids ix
    rw [List.cons_append, featuresLoop]
    exact List.mem_append_right _ (ih (featureEntry ids ix a).2 (ix + 1))

/-- C7: any document validated without a thrown exception whose `features`
array holds an entry `f1` and, later, an entry `f2` carrying the same usable
(non-blank string) id `x` fails validation, and the error list contains
"Duplicate feature id: x". -/
theorem duplicate_feature_id_reported
    (fields : List (String × JValue)) (fs pre post : List JValue) (f1 f2 : JValue)
    (x : String) (res : ValidationResult)
    (hres : validateConfiguration (.obj fields) = Except.ok res)
    (hfeat : jsGet (.obj fields) "features" = some (.arr fs))
    (hsplit : fs = pre ++ f1 :: post) (hf2 : f2 ∈ post)
    (h1obj : jsIsObjecty f1 = true) (h2obj : jsIsObjecty f2 = true)
    (h1id : idStringOf (jsGet f1 "id") = some x)
    (h2id : idStringOf (jsGet f2 "id") = some x) :
    res.isValid = false ∧ ("Duplicate feature id: " ++ x) ∈ res.errors := by
  obtain ⟨e4, _, herr, hval⟩ := validateConfiguration_ok_destruct hres
  have hmem : ("Duplicate feature id: " ++ x) ∈ res.errors := by
    rw [herr]
    refine List.mem_append_left _ (List.mem_append_right _ ?_)
    unfold featuresSectionErrors
    rw [hfeat, hsplit]
    change ("Duplicate feature id: " ++ x)
      ∈ (if (pre ++ f1 :: post).isEmpty = true then ["features cannot be empty"]
          else featuresLoop [] 0 (pre ++ f1 :: post))
    rw [if_neg (by simp)]
    exact dup_mem_featuresLoop h1obj h1id h2obj h2id hf2 pre [] 0
  exact ⟨isValid_false_of_mem hval hmem, hmem⟩

/-- First catalog entry of the concrete duplicate-id document. -/
def dupFeatureOne : JValue :=
  .obj [("id", .str "f1"), ("name", .str "One")]

/-- Second catalog entry of the concrete duplicate-id document, with the same
id. -/
def dupFeatureTwo : JValue :=
  .obj [("id", .str "f1"), ("name", .str "Two")]

/-- A concrete document whose `features` array holds two entries with id
`"f1"`. -/
def dupFeatureFields : List (String × JValue) :=
  [("supportedPlans", .arr [.str "Basic"]),
   ("supportedRegions", .arr [.str "US"]),
   ("features", .arr [dupFeatureOne, dupFeatureTwo]),
   ("rules", .arr [.obj [("id", .str "r1"),
     ("conditions", .arr [.obj [("attribute", .str "plan"),
       ("operator", .str "equals"), ("value", .str "Basic")]]),
     ("features", .arr [.str "f1"])]])]

/-- The validation result produced for the duplicate-id document. -/
def dupResult : ValidationResult :=
  { isValid := false, errors := ["Duplicate feature id: f1"] }

/-- Witness for `duplicate_feature_id_reported` on the concrete duplicate-id
document. -/
theorem duplicate_feature_id_reported_witness :
    validateConfiguration (.obj dupFeatureFields) = Except.ok dupResult
    ∧ dupResult.isValid = false
    ∧ ("Duplicate feature id: " ++ "f1") ∈ dupResult.errors :=
  ⟨rfl,
    duplicate_feature_id_reported dupFeatureFields [dupFeatureOne, dupFeatureTwo]
      [] [dupFeatureTwo] dupFeatureOne dupFeatureTwo "f1" dupResult
      rfl rfl rfl (List.Mem.head _) rfl rfl rfl rfl⟩

/-- A document satisfying C6's antecedent (its rule references the undefined
feature id `"ghost-feature"`) whose `features` catalog additionally holds a
`null` entry, so `config.features?.map((f) => f.id)` throws before any result
is returned. -/
def ghostFeatureThrowFields : List (String × JValue) :=
  [("supportedPlans", .arr [.str "Basic", .str "Pro"]),
   ("supportedRegions", .arr [.str "US", .str "EU"]),
   ("features", .arr [.obj [("id", .str "f1"), ("name", .str "Feature One")], .null]),
   ("rules", .arr [ghostRule])]

/-- Counterexample to C6 as stated: this document's rule lists the non-empty
string `"ghost-feature"`, which is not the id of any catalog entry, yet
`validateConfiguration` does not return a failed result — it throws a
`TypeError` (because the catalog also holds a `null` entry and the rules
section maps `f.id` over the raw `features` array). -/
theorem undefined_feature_reference_counterexample :
    validateConfiguration (.obj ghostFeatureThrowFields)
      = Except.error "TypeError: Cannot read properties of null (reading id)" :=
  rfl

/-- A document satisfying C7's antecedent (two catalog entries share the id
`"f1"`) whose `features` catalog additionally holds a `null` entry, so the
rules section throws before any result is returned. -/
def dupFeatureThrowFields : List (String × JValue) :=
  [("supportedPlans", .arr [.str "Basic"]),
   ("supportedRegions", .arr [.str "US"]),
   ("features", .arr [dupFeatureOne, dupFeatureTwo, .null]),
   ("rules", .arr [.obj [("id", .str "r1"),
     ("conditions", .arr [.obj [("attribute", .str "plan"),
       ("operator", .str "equals"), ("value", .str "Basic")]]),
     ("features", .arr [.str "f1"])]])]

/-- Counterexample to C7 as stated: this document's `features` array holds two
entries with the same non-empty id `"f1"`, yet `validateConfiguration` does
not return a failed result — it throws a `TypeError`. -/
theorem duplicate_feature_id_counterexample :
    validateConfiguration (.obj dupFeatureThrowFields)
      = Except.error "TypeError: Cannot read properties of null (reading id)" :=
  rfl
